import Mathlib

set_option maxRecDepth 8000

namespace CreateNote

/-!
Verification of the create-note plugin (`src/src/ExtNoteManager.ts` and the
earlier revision in `src/unnamed/part_004`).  JavaScript strings are modelled
as `List Char` (converted to `String` at structure boundaries); the host
vault is modelled as a finite map from paths to file contents; asynchronous
calls are modelled as sequential state passing, which matches the source: all
`await`s are sequential and there is no concurrency.
-/

/-! ### Generic character-list helpers -/

/-- `isPrefixL p l` decides whether `p` is a prefix of `l`. -/
def isPrefixL : List Char → List Char → Bool
  | [], _ => true
  | _ :: _, [] => false
  | p :: ps, c :: cs => p == c && isPrefixL ps cs

/-- Whether the pattern `p` occurs as a contiguous substring of `l`. -/
def occursB (p : List Char) : List Char → Bool
  | [] => isPrefixL p []
  | c :: cs => isPrefixL p (c :: cs) || occursB p cs

/-- The whitespace characters recognised by the JavaScript string functions
used in the source (`trim`, the `\s` class); restricted to ASCII, which is
the only whitespace the modelled inputs contain. -/
def isJsWs (c : Char) : Bool :=
  c == ' ' || c == '\t' || c == '\n' || c == '\r' || c == '\x0b' || c == '\x0c'

/-- JavaScript `String.prototype.trim`: strip whitespace from both ends. -/
def jsTrim (l : List Char) : List Char :=
  ((l.dropWhile isJsWs).reverse.dropWhile isJsWs).reverse

/-- The JavaScript `\w` class: ASCII letters, digits and underscore. -/
def isWordChar (c : Char) : Bool :=
  c.isAlpha || c.isDigit || c == '_'

/-- JavaScript `String.prototype.split` with a single-character separator:
`splitCh sep l` never returns `[]` and keeps empty segments. -/
def splitCh (sep : Char) : List Char → List (List Char)
  | [] => [[]]
  | c :: cs =>
    match splitCh sep cs with
    | [] => [[]]
    | s :: ss => if c == sep then [] :: s :: ss else (c :: s) :: ss

/-! ### The date normalization of the rename feature -/

/-- The test `cleanDate.match(/^\d{4}-\d{2}-\d{2}/)` of
`formatDateForFilename` (src/src/ExtNoteManager.ts:445): the string starts
with four digits, a dash, two digits, a dash, two digits. -/
def matchYMDstart : List Char → Bool
  | y1 :: y2 :: y3 :: y4 :: s1 :: m1 :: m2 :: s2 :: d1 :: d2 :: _ =>
    y1.isDigit && y2.isDigit && y3.isDigit && y4.isDigit && s1 == '-' &&
    m1.isDigit && m2.isDigit && s2 == '-' && d1.isDigit && d2.isDigit
  | _ => false

/-- The test `cleanDate.match(/^\d{2}\.\d{2}\.\d{4}$/)` of
`formatDateForFilename` (src/src/ExtNoteManager.ts:450): the whole string is
two digits, a dot, two digits, a dot, four digits. -/
def matchDMYexact : List Char → Bool
  | [d1, d2, p1, m1, m2, p2, y1, y2, y3, y4] =>
    d1.isDigit && d2.isDigit && p1 == '.' && m1.isDigit && m2.isDigit &&
    p2 == '.' && y1.isDigit && y2.isDigit && y3.isDigit && y4.isDigit
  | _ => false

/-- `formatDateForFilename` (src/src/ExtNoteManager.ts:439-458): trims the
input, returns the first 10 characters when it starts with `YYYY-MM-DD`,
rearranges an exact `DD.MM.YYYY` via `split('.')` into
`parts[2]-parts[1]-parts[0]`, and otherwise returns the empty string. -/
def formatDateForFilename (dateStr : List Char) : List Char :=
  let cleanDate := jsTrim dateStr
  if matchYMDstart cleanDate then cleanDate.take 10
  else if matchDMYexact cleanDate then
    let parts := splitCh '.' cleanDate
    parts.getD 2 [] ++ ['-'] ++ parts.getD 1 [] ++ ['-'] ++ parts.getD 0 []
  else []

/-! ### Frontmatter extraction and the rename routine -/

/-- Index of the first occurrence of `p` in `l` (`none` when absent). -/
def findSub (p : List Char) : List Char → Option Nat
  | [] => if isPrefixL p [] then some 0 else none
  | c :: cs =>
    if isPrefixL p (c :: cs) then some 0
    else
      match findSub p cs with
      | some i => some (i + 1)
      | none => none

/-- The frontmatter regex of src/src/ExtNoteManager.ts:384 (three dashes, a
lazy any-character body, three dashes, anchored at the start): the match is
the shortest prefix that starts with a triple dash and ends with the next
later occurrence of a triple dash. -/
def frontmatterMatch (content : List Char) : Option (List Char) :=
  if isPrefixL ['-', '-', '-'] content then
    match findSub ['-', '-', '-'] (content.drop 3) with
    | some i => some (content.take (3 + i + 3))
    | none => none
  else none

/-- One line of `parseFrontmatter` (src/src/ExtNoteManager.ts:428-433),
the regex `^(\w+):\s*(.*)$`: a maximal non-empty run of word characters,
a colon, greedily skipped whitespace, then a value that may not contain a
line terminator (`.` does not match `\r`); key and value are trimmed. -/
def parseKVLine (l : List Char) : Option (String × String) :=
  let key := l.takeWhile isWordChar
  if key.isEmpty then none
  else
    match l.drop key.length with
    | ':' :: rest =>
      let v := rest.dropWhile isJsWs
      if v.any (fun c => c == '\r' || c == '\n') then none
      else some (String.mk key, String.mk (jsTrim v))
    | _ => none

/-- `parseFrontmatter` (src/src/ExtNoteManager.ts:423-437): drop the first
and last line of the matched block (the `---` delimiters), parse each
remaining line, and assign into a JS object, so a repeated key keeps the
last value. -/
def parseFrontmatter (fmStr : List Char) : List (String × String) :=
  let ls := ((splitCh '\n' fmStr).drop 1).dropLast
  ls.foldl
    (fun acc l =>
      match parseKVLine l with
      | some (k, v) =>
        if acc.any (fun p => p.1 == k) then
          acc.map (fun p => if p.1 == k then (k, v) else p)
        else acc ++ [(k, v)]
      | none => acc) []

/-- Property lookup on the parsed frontmatter object. -/
def fmLookup (m : List (String × String)) (k : String) : Option String :=
  (m.find? (fun p => p.1 == k)).map (fun p => p.2)

/-- The fields of the note file handle used by the rename routine. -/
structure NoteFile where
  parent : Option String
  basename : String
  extension : String
deriving DecidableEq, Repr

/-- `renameNoteWithCreatedDate` (src/src/ExtNoteManager.ts:378-421), modelled
as the new path passed to the host's rename operation; `none` when the
routine returns early (no frontmatter block, or no `created` key).  Note the
JS falsy test `if (!frontmatter.created)`: an empty `created` value is
treated like a missing one. -/
def renameNoteWithCreatedDate (f : NoteFile) (content : List Char) : Option String :=
  match frontmatterMatch content with
  | none => none
  | some fmStr =>
    match fmLookup (parseFrontmatter fmStr) "created" with
    | none => none
    | some created =>
      if created == "" then none
      else
        let datePrefix := String.mk (formatDateForFilename created.data)
        let newName := datePrefix ++ " " ++ f.basename
        let pathPrefix :=
          match f.parent with
          | some p => p ++ "/"
          | none => ""
        some (pathPrefix ++ newName ++ "." ++ f.extension)

/-! ### Character facts -/

theorem digit_not_ws (c : Char) (h : c.isDigit = true) : isJsWs c = false := by
  by_contra hne
  rw [Bool.not_eq_false] at hne
  simp only [isJsWs, Bool.or_eq_true, beq_iff_eq] at hne
  rcases hne with ((((rfl | rfl) | rfl) | rfl) | rfl) | rfl <;> exact absurd h (by decide)

theorem digit_ne_dot (c : Char) (h : c.isDigit = true) : (c == '.') = false := by
  rw [beq_eq_false_iff_ne]
  rintro rfl
  exact absurd h (by decide)

/-! ### `dropWhile` and `jsTrim` facts -/

theorem dropWhile_append_of_all {α : Type} (p : α → Bool) (xs ys : List α)
    (h : ∀ a ∈ xs, p a = true) : (xs ++ ys).dropWhile p = ys.dropWhile p := by
  induction xs with
  | nil => rfl
  | cons a l ih =>
    have ha := h a (List.mem_cons_self a l)
    simp only [List.cons_append, List.dropWhile_cons, ha, if_true]
    exact ih (fun b hb => h b (List.mem_cons_of_mem a hb))

theorem dropWhile_all {α : Type} (p : α → Bool) (xs : List α)
    (h : ∀ a ∈ xs, p a = true) : xs.dropWhile p = [] := by
  have e := dropWhile_append_of_all p xs [] h
  simpa using e

/-- `jsTrim` discards exactly the surrounding whitespace. -/
theorem jsTrim_pad (ws1 ws2 l : List Char)
    (h1 : ∀ c ∈ ws1, isJsWs c = true) (h2 : ∀ c ∈ ws2, isJsWs c = true) :
    jsTrim (ws1 ++ l ++ ws2) = jsTrim l := by
  unfold jsTrim
  rw [List.append_assoc, dropWhile_append_of_all _ ws1 _ h1, List.dropWhile_append]
  by_cases hle : (l.dropWhile isJsWs).isEmpty = true
  · have hnil : l.dropWhile isJsWs = [] := by
      simpa [List.isEmpty_iff] using hle
    rw [if_pos hle, dropWhile_all _ ws2 h2, hnil]
  · rw [if_neg hle, List.reverse_append,
      dropWhile_append_of_all _ ws2.reverse _
        (fun c hc => h2 c (List.mem_reverse.mp hc))]

/-! ### Claim C9 -/

/-- C9, counterexample: the claim maps "any string starting with the pattern
YYYY-MM-DD" to its first 10 characters and "every other string" to the empty
string; a value with leading whitespace is such an "other string" (it neither
starts with the pattern nor has exactly the DD.MM.YYYY form), yet
`formatDateForFilename` trims first and returns a non-empty prefix. -/
theorem c9_counterexample :
    matchYMDstart (" 2023-08-20".data) = false ∧
    matchDMYexact (" 2023-08-20".data) = false ∧
    formatDateForFilename (" 2023-08-20".data) = "2023-08-20".data := by
  exact ⟨by decide, by decide, by decide⟩

/-- C9 (amended): the date normalization first trims surrounding whitespace;
on the trimmed value it maps any string starting with the pattern YYYY-MM-DD
to its first 10 characters, maps any string of exactly the form DD.MM.YYYY to
YYYY-MM-DD, and maps every other value to the empty string; consequently the
two accepted input formats for the same calendar date yield the identical
prefix. -/
theorem c9_amended :
    (∀ ws1 ws2 l : List Char,
      (∀ c ∈ ws1, isJsWs c = true) → (∀ c ∈ ws2, isJsWs c = true) →
      formatDateForFilename (ws1 ++ l ++ ws2) = formatDateForFilename l) ∧
    (∀ l : List Char, matchYMDstart (jsTrim l) = true →
      formatDateForFilename l = (jsTrim l).take 10) ∧
    (∀ d1 d2 m1 m2 y1 y2 y3 y4 : Char,
      d1.isDigit = true → d2.isDigit = true → m1.isDigit = true →
      m2.isDigit = true → y1.isDigit = true → y2.isDigit = true →
      y3.isDigit = true → y4.isDigit = true →
      formatDateForFilename [d1, d2, '.', m1, m2, '.', y1, y2, y3, y4] =
        [y1, y2, y3, y4, '-', m1, m2, '-', d1, d2] ∧
      formatDateForFilename [y1, y2, y3, y4, '-', m1, m2, '-', d1, d2] =
        [y1, y2, y3, y4, '-', m1, m2, '-', d1, d2]) ∧
    (∀ l : List Char, matchYMDstart (jsTrim l) = false →
      matchDMYexact (jsTrim l) = false → formatDateForFilename l = []) := by
  refine ⟨?_, ?_, ?_, ?_⟩
  · intro ws1 ws2 l h1 h2
    have h := jsTrim_pad ws1 ws2 l h1 h2
    simp only [formatDateForFilename, h]
  · intro l h
    simp [formatDateForFilename, h]
  · intro d1 d2 m1 m2 y1 y2 y3 y4 hd1 hd2 hm1 hm2 hy1 hy2 hy3 hy4
    have e1 : jsTrim [d1, d2, '.', m1, m2, '.', y1, y2, y3, y4] =
        [d1, d2, '.', m1, m2, '.', y1, y2, y3, y4] := by
      simp [jsTrim, List.dropWhile_cons, digit_not_ws d1 hd1, digit_not_ws y4 hy4]
    have e2 : matchYMDstart [d1, d2, '.', m1, m2, '.', y1, y2, y3, y4] = false := by
      have hdot : ('.' : Char).isDigit = false := by decide
      simp [matchYMDstart, hdot]
    have e3 : matchDMYexact [d1, d2, '.', m1, m2, '.', y1, y2, y3, y4] = true := by
      simp [matchDMYexact, hd1, hd2, hm1, hm2, hy1, hy2, hy3, hy4]
    have f1 : jsTrim [y1, y2, y3, y4, '-', m1, m2, '-', d1, d2] =
        [y1, y2, y3, y4, '-', m1, m2, '-', d1, d2] := by
      simp [jsTrim, List.dropWhile_cons, digit_not_ws y1 hy1, digit_not_ws d2 hd2]
    have f2 : matchYMDstart [y1, y2, y3, y4, '-', m1, m2, '-', d1, d2] = true := by
      simp [matchYMDstart, hd1, hd2, hm1, hm2, hy1, hy2, hy3, hy4]
    constructor
    · simp [formatDateForFilename, e1, e2, e3, splitCh,
        digit_ne_dot d1 hd1, digit_ne_dot d2 hd2, digit_ne_dot m1 hm1,
        digit_ne_dot m2 hm2, digit_ne_dot y1 hy1, digit_ne_dot y2 hy2,
        digit_ne_dot y3 hy3, digit_ne_dot y4 hy4]
    · simp [formatDateForFilename, f1, f2]
  · intro l h1 h2
    simp [formatDateForFilename, h1, h2]

/-- C9, witness: the amended theorem applied to the spec's example date in
both accepted formats. -/
theorem c9_witness :
    formatDateForFilename ("20.08.2023".data) = "2023-08-20".data ∧
    formatDateForFilename ("2023-08-20".data) = "2023-08-20".data := by
  have h := (c9_amended.2.2.1 '2' '0' '0' '8' '2' '0' '2' '3'
    (by decide) (by decide) (by decide) (by decide)
    (by decide) (by decide) (by decide) (by decide))
  exact ⟨h.1, h.2⟩

/-! ### Claim C10 -/

/-- C10: when a note's frontmatter has a (non-empty) `created` value matching
neither accepted date format, the rename routine still performs a rename, and
because the computed date prefix is the empty string and a single space is
always inserted between prefix and base name, the new path ends in
" basename.extension" with a leading space before the base name. -/
theorem c10_thm (f : NoteFile) (content fmStr : List Char) (created : String)
    (hfm : frontmatterMatch content = some fmStr)
    (hcr : fmLookup (parseFrontmatter fmStr) "created" = some created)
    (hne : created ≠ "")
    (hfmt : formatDateForFilename created.data = []) :
    renameNoteWithCreatedDate f content =
      some ((match f.parent with | some p => p ++ "/" | none => "") ++
        (" " ++ f.basename) ++ "." ++ f.extension) := by
  have hbeq : (created == "") = false := beq_eq_false_iff_ne.mpr hne
  simp only [renameNoteWithCreatedDate, hfm, hcr, hbeq, Bool.false_eq_true,
    if_false, hfmt]
  rfl

/-- C10, witness: a note whose `created` value is the word "someday". -/
theorem c10_witness :
    renameNoteWithCreatedDate ⟨some "notes", "myNote", "md"⟩
      ("---\ncreated: someday\n---\nbody".data) = some "notes/ myNote.md" := by
  have h := c10_thm ⟨some "notes", "myNote", "md"⟩
    ("---\ncreated: someday\n---\nbody".data) ("---\ncreated: someday\n---".data)
    "someday" (by decide) (by decide) (by decide) (by decide)
  rw [h]
  rfl

/-! ### JS global literal replacement (template placeholder substitution) -/

/-- JavaScript `String.prototype.replace` with a global literal pattern
(`content.replace(re, r)` with a `g`-flagged, metacharacter-free regex, as
in src/src/ExtNoteManager.ts:146-147): scan left to right, replace each
non-overlapping occurrence, and resume after the replaced text. -/
def replaceAll (p r : List Char) : List Char → List Char
  | [] => []
  | c :: cs =>
    if h : p ≠ [] ∧ isPrefixL p (c :: cs) = true then
      r ++ replaceAll p r ((c :: cs).drop p.length)
    else c :: replaceAll p r cs
termination_by l => l.length
decreasing_by
  · have hp : 1 ≤ p.length := by
      cases p with
      | nil => exact absurd rfl h.1
      | cons a ps => simp
    simp only [List.length_drop, List.length_cons]
    omega
  · simp

/-- The decomposition of a string induced by the same left-to-right scan:
the segments strictly between the non-overlapping occurrences of `p`. -/
def splitSeq (p : List Char) : List Char → List (List Char)
  | [] => [[]]
  | c :: cs =>
    if h : p ≠ [] ∧ isPrefixL p (c :: cs) = true then
      [] :: splitSeq p ((c :: cs).drop p.length)
    else
      match splitSeq p cs with
      | [] => [[c]]
      | s :: ss => (c :: s) :: ss
termination_by l => l.length
decreasing_by
  · have hp : 1 ≤ p.length := by
      cases p with
      | nil => exact absurd rfl h.1
      | cons a ps => simp
    simp only [List.length_drop, List.length_cons]
    omega
  · simp

/-- Interleave a separator between segments. -/
def joinWith (sep : List Char) : List (List Char) → List Char
  | [] => []
  | [s] => s
  | s :: ss => s ++ sep ++ joinWith sep ss

theorem isPrefixL_append_drop :
    ∀ p l : List Char, isPrefixL p l = true → p ++ l.drop p.length = l
  | [], l => by simp [isPrefixL]
  | a :: ps, [] => by simp [isPrefixL]
  | a :: ps, c :: cs => by
    simp only [isPrefixL, Bool.and_eq_true, beq_iff_eq, List.length_cons,
      List.drop_succ_cons, List.cons_append, and_imp]
    intro h1 h2
    subst h1
    rw [isPrefixL_append_drop ps cs h2]

theorem isPrefixL_trans :
    ∀ p x y : List Char, isPrefixL p x = true → isPrefixL x y = true →
      isPrefixL p y = true
  | [], _, _ => by simp [isPrefixL]
  | a :: ps, [], y => by simp [isPrefixL]
  | a :: ps, b :: xs, [] => by simp [isPrefixL]
  | a :: ps, b :: xs, c :: ys => by
    simp only [isPrefixL, Bool.and_eq_true, beq_iff_eq, and_imp]
    intro h1 h2 h3 h4
    subst h1; subst h3
    exact ⟨rfl, isPrefixL_trans ps xs ys h2 h4⟩

theorem splitSeq_ne_nil (p l : List Char) : splitSeq p l ≠ [] := by
  cases l with
  | nil => simp [splitSeq]
  | cons c cs =>
    rw [splitSeq]
    split
    · simp
    · split <;> simp

theorem splitSeq_cons_pos (p : List Char) (c : Char) (cs : List Char)
    (h : p ≠ [] ∧ isPrefixL p (c :: cs) = true) :
    splitSeq p (c :: cs) = [] :: splitSeq p ((c :: cs).drop p.length) := by
  rw [splitSeq, dif_pos h]

theorem splitSeq_cons_neg (p : List Char) (c : Char) (cs s : List Char)
    (ss : List (List Char)) (h : ¬(p ≠ [] ∧ isPrefixL p (c :: cs) = true))
    (hS : splitSeq p cs = s :: ss) :
    splitSeq p (c :: cs) = (c :: s) :: ss := by
  rw [splitSeq, dif_neg h, hS]

theorem replaceAll_cons_pos (p r : List Char) (c : Char) (cs : List Char)
    (h : p ≠ [] ∧ isPrefixL p (c :: cs) = true) :
    replaceAll p r (c :: cs) = r ++ replaceAll p r ((c :: cs).drop p.length) := by
  rw [replaceAll, dif_pos h]

theorem replaceAll_cons_neg (p r : List Char) (c : Char) (cs : List Char)
    (h : ¬(p ≠ [] ∧ isPrefixL p (c :: cs) = true)) :
    replaceAll p r (c :: cs) = c :: replaceAll p r cs := by
  rw [replaceAll, dif_neg h]

theorem drop_len_le {p : List Char} (c : Char) (cs : List Char) (n : Nat)
    (hp : p ≠ []) (hl : (c :: cs).length ≤ n + 1) :
    ((c :: cs).drop p.length).length ≤ n := by
  have h1 : 1 ≤ p.length := by
    cases p with
    | nil => exact absurd rfl hp
    | cons a ps => simp
  simp only [List.length_drop, List.length_cons] at *
  omega

/-- The first segment of the scan decomposition is a prefix of the input. -/
theorem splitSeq_head_seg (p : List Char) :
    ∀ l : List Char, ∃ s ss, splitSeq p l = s :: ss ∧ isPrefixL s l = true := by
  have main : ∀ n l, l.length ≤ n →
      ∃ s ss, splitSeq p l = s :: ss ∧ isPrefixL s l = true := by
    intro n
    induction n with
    | zero =>
      intro l hl
      have hnil : l = [] := List.length_eq_zero.mp (Nat.le_zero.mp hl)
      subst hnil
      exact ⟨[], [], by simp [splitSeq], by simp [isPrefixL]⟩
    | succ n ih =>
      intro l hl
      cases l with
      | nil => exact ⟨[], [], by simp [splitSeq], by simp [isPrefixL]⟩
      | cons c cs =>
        by_cases h : p ≠ [] ∧ isPrefixL p (c :: cs) = true
        · exact ⟨[], _, splitSeq_cons_pos p c cs h, by simp [isPrefixL]⟩
        · obtain ⟨s, ss, hs, hpre⟩ := ih cs (by
            simpa using Nat.le_of_succ_le_succ (by simpa using hl))
          refine ⟨c :: s, ss, splitSeq_cons_neg p c cs s ss h hs, ?_⟩
          simp [isPrefixL, hpre]
  intro l
  exact main l.length l le_rfl

/-- Re-joining the decomposition with the pattern itself recovers the
input: the scan finds a genuine decomposition of the string. -/
theorem joinWith_splitSeq (p : List Char) :
    ∀ l : List Char, joinWith p (splitSeq p l) = l := by
  have main : ∀ n l, l.length ≤ n → joinWith p (splitSeq p l) = l := by
    intro n
    induction n with
    | zero =>
      intro l hl
      have hnil : l = [] := List.length_eq_zero.mp (Nat.le_zero.mp hl)
      subst hnil
      simp [splitSeq, joinWith]
    | succ n ih =>
      intro l hl
      cases l with
      | nil => simp [splitSeq, joinWith]
      | cons c cs =>
        by_cases h : p ≠ [] ∧ isPrefixL p (c :: cs) = true
        · rw [splitSeq_cons_pos p c cs h]
          obtain ⟨s, ss, hs⟩ : ∃ s ss,
              splitSeq p ((c :: cs).drop p.length) = s :: ss := by
            rcases hS : splitSeq p ((c :: cs).drop p.length) with _ | ⟨s, ss⟩
            · exact absurd hS (splitSeq_ne_nil _ _)
            · exact ⟨s, ss, rfl⟩
          rw [hs]
          have hjw : joinWith p ([] :: s :: ss) = [] ++ p ++ joinWith p (s :: ss) := rfl
          rw [hjw, ← hs, ih _ (drop_len_le c cs n h.1 (by simpa using hl))]
          simpa using isPrefixL_append_drop p (c :: cs) h.2
        · rcases hS : splitSeq p cs with _ | ⟨s, ss⟩
          · exact absurd hS (splitSeq_ne_nil _ _)
          · rw [splitSeq_cons_neg p c cs s ss h hS]
            have ih2 := ih cs (by simpa using Nat.le_of_succ_le_succ (by simpa using hl))
            rw [hS] at ih2
            cases ss with
            | nil =>
              have e1 : joinWith p [c :: s] = c :: s := rfl
              have e2 : joinWith p [s] = s := rfl
              rw [e2] at ih2
              rw [e1, ih2]
            | cons t ts =>
              have e1 : joinWith p ((c :: s) :: t :: ts) =
                  (c :: s) ++ p ++ joinWith p (t :: ts) := rfl
              have e2 : joinWith p (s :: t :: ts) =
                  s ++ p ++ joinWith p (t :: ts) := rfl
              rw [e2] at ih2
              rw [e1, ← ih2]
              simp
  intro l
  exact main l.length l le_rfl

/-- The global replacement is exactly: every segment of the decomposition,
joined by the replacement text instead of the pattern. -/
theorem replaceAll_eq_joinWith (p r : List Char) :
    ∀ l : List Char, replaceAll p r l = joinWith r (splitSeq p l) := by
  have main : ∀ n l, l.length ≤ n →
      replaceAll p r l = joinWith r (splitSeq p l) := by
    intro n
    induction n with
    | zero =>
      intro l hl
      have hnil : l = [] := List.length_eq_zero.mp (Nat.le_zero.mp hl)
      subst hnil
      simp [splitSeq, replaceAll, joinWith]
    | succ n ih =>
      intro l hl
      cases l with
      | nil => simp [splitSeq, replaceAll, joinWith]
      | cons c cs =>
        by_cases h : p ≠ [] ∧ isPrefixL p (c :: cs) = true
        · rw [splitSeq_cons_pos p c cs h, replaceAll_cons_pos p r c cs h]
          obtain ⟨s, ss, hs⟩ : ∃ s ss,
              splitSeq p ((c :: cs).drop p.length) = s :: ss := by
            rcases hS : splitSeq p ((c :: cs).drop p.length) with _ | ⟨s, ss⟩
            · exact absurd hS (splitSeq_ne_nil _ _)
            · exact ⟨s, ss, rfl⟩
          rw [hs]
          have hjw : joinWith r ([] :: s :: ss) = [] ++ r ++ joinWith r (s :: ss) := rfl
          rw [hjw, ← hs, ih _ (drop_len_le c cs n h.1 (by simpa using hl))]
          simp
        · rcases hS : splitSeq p cs with _ | ⟨s, ss⟩
          · exact absurd hS (splitSeq_ne_nil _ _)
          · rw [splitSeq_cons_neg p c cs s ss h hS, replaceAll_cons_neg p r c cs h]
            have ih2 := ih cs (by simpa using Nat.le_of_succ_le_succ (by simpa using hl))
            rw [hS] at ih2
            cases ss with
            | nil =>
              have e1 : joinWith r [c :: s] = c :: s := rfl
              have e2 : joinWith r [s] = s := rfl
              rw [e2] at ih2
              rw [e1, ih2]
            | cons t ts =>
              have e1 : joinWith r ((c :: s) :: t :: ts) =
                  (c :: s) ++ r ++ joinWith r (t :: ts) := rfl
              have e2 : joinWith r (s :: t :: ts) =
                  s ++ r ++ joinWith r (t :: ts) := rfl
              rw [e2] at ih2
              rw [e1, ih2]
              simp
  intro l
  exact main l.length l le_rfl

/-- No segment of the decomposition contains an occurrence of the pattern:
together with `joinWith_splitSeq` and `replaceAll_eq_joinWith` this states
that the scan replaces every occurrence. -/
theorem splitSeq_token_free (p : List Char) (hp : p ≠ []) :
    ∀ l : List Char, ∀ s ∈ splitSeq p l, occursB p s = false := by
  have hempty : occursB p [] = false := by
    cases p with
    | nil => exact absurd rfl hp
    | cons a ps => simp [occursB, isPrefixL]
  have main : ∀ n l, l.length ≤ n → ∀ s ∈ splitSeq p l, occursB p s = false := by
    intro n
    induction n with
    | zero =>
      intro l hl s hs
      have hnil : l = [] := List.length_eq_zero.mp (Nat.le_zero.mp hl)
      subst hnil
      simp only [splitSeq, List.mem_singleton] at hs
      subst hs
      exact hempty
    | succ n ih =>
      intro l hl s hs
      cases l with
      | nil =>
        simp only [splitSeq, List.mem_singleton] at hs
        subst hs
        exact hempty
      | cons c cs =>
        by_cases h : p ≠ [] ∧ isPrefixL p (c :: cs) = true
        · rw [splitSeq_cons_pos p c cs h] at hs
          rcases List.mem_cons.mp hs with rfl | hmem
          · exact hempty
          · exact ih _ (drop_len_le c cs n h.1 (by simpa using hl)) s hmem
        · rcases hS : splitSeq p cs with _ | ⟨t, ts⟩
          · exact absurd hS (splitSeq_ne_nil _ _)
          · rw [splitSeq_cons_neg p c cs t ts h hS] at hs
            have hcs : cs.length ≤ n := by
              simpa using Nat.le_of_succ_le_succ (by simpa using hl)
            rcases List.mem_cons.mp hs with rfl | hmem
            · have htfree : occursB p t = false := by
                refine ih cs hcs t ?_
                rw [hS]
                exact List.mem_cons_self t ts
              have hnot : isPrefixL p (c :: t) = false := by
                by_contra hcon
                rw [Bool.not_eq_false] at hcon
                obtain ⟨s0, ss0, hs0, hpre0⟩ := splitSeq_head_seg p cs
                rw [hS] at hs0
                have ht : t = s0 := (List.cons.inj hs0).1
                subst ht
                have hct : isPrefixL (c :: t) (c :: cs) = true := by
                  simp [isPrefixL, hpre0]
                have := isPrefixL_trans p (c :: t) (c :: cs) hcon hct
                exact h ⟨hp, this⟩
              simp [occursB, hnot, htfree]
            · refine ih cs hcs s ?_
              rw [hS]
              exact List.mem_cons_of_mem t hmem
  intro l
  exact main l.length l le_rfl

/-- A string without any occurrence of the pattern is left unchanged. -/
theorem replaceAll_of_not_occurs (p r : List Char) :
    ∀ l : List Char, occursB p l = false → replaceAll p r l = l := by
  intro l
  induction l with
  | nil => intro _; simp [replaceAll]
  | cons c cs ih =>
    intro h
    simp only [occursB, Bool.or_eq_false_iff] at h
    rw [replaceAll_cons_neg p r c cs (by
      rintro ⟨_, hcon⟩
      rw [h.1] at hcon
      exact Bool.false_ne_true hcon)]
    rw [ih h.2]

/-! ### Clock readings and date formatting -/

/-- The clock readings consumed by the date helpers; the fields follow the
JS `Date` accessors used in the source, so `month` is 0-based (`getMonth`). -/
structure Clock where
  year : Nat
  month : Nat
  day : Nat
  hours : Nat
  minutes : Nat
deriving DecidableEq, Repr

/-- `String(n).padStart(2, '0')` as used for the two-digit components. -/
def pad2 (n : Nat) : String :=
  if n < 10 then "0" ++ toString n else toString n

/-- `getFormattedISODate` (src/src/ExtNoteManager.ts:329-342): the current
local date/time as `YYYY-MM-DD HH:MM`; the month is `getMonth() + 1`. -/
def getFormattedISODate (c : Clock) : String :=
  toString c.year ++ "-" ++ pad2 (c.month + 1) ++ "-" ++ pad2 c.day ++ " " ++
    pad2 c.hours ++ ":" ++ pad2 c.minutes

/-- `createDatePrefix` (src/src/ExtNoteManager.ts:270-283): the current local
date as `YYYY-MM-DD`. -/
def createDatePrefix (c : Clock) : String :=
  toString c.year ++ "-" ++ pad2 (c.month + 1) ++ "-" ++ pad2 c.day

/-- The decimal digits of `n`, most significant first; proved below to agree
with core's `Nat.toDigitsCore`, which underlies `toString` on `Nat`. -/
def natChars (n : Nat) : List Char :=
  if h : n < 10 then [Nat.digitChar n]
  else natChars (n / 10) ++ [Nat.digitChar (n % 10)]
termination_by n
decreasing_by exact Nat.div_lt_self (by omega) (by omega)

theorem natChars_lt (n : Nat) (h : n < 10) : natChars n = [Nat.digitChar n] := by
  rw [natChars, dif_pos h]

theorem natChars_ge (n : Nat) (h : ¬n < 10) :
    natChars n = natChars (n / 10) ++ [Nat.digitChar (n % 10)] := by
  rw [natChars, dif_neg h]

theorem toDigitsCore_eq_natChars :
    ∀ (f n : Nat) (acc : List Char), n < f →
      Nat.toDigitsCore 10 f n acc = natChars n ++ acc := by
  intro f
  induction f with
  | zero => intro n acc h; omega
  | succ f ih =>
    intro n acc h
    by_cases h10 : n < 10
    · have hdiv : n / 10 = 0 := Nat.div_eq_of_lt h10
      have hmod : n % 10 = n := Nat.mod_eq_of_lt h10
      simp [Nat.toDigitsCore, hdiv, hmod, natChars_lt n h10]
    · have hpos : 1 ≤ n / 10 := (Nat.le_div_iff_mul_le (by norm_num)).mpr (by omega)
      have hlt : n / 10 < n := Nat.div_lt_self (by omega) (by omega)
      have hstep : Nat.toDigitsCore 10 (f + 1) n acc =
          Nat.toDigitsCore 10 f (n / 10) (Nat.digitChar (n % 10) :: acc) := by
        simp [Nat.toDigitsCore]
        omega
      rw [hstep, ih (n / 10) _ (by omega), natChars_ge n h10]
      simp

theorem repr_data_eq_natChars (n : Nat) : (Nat.repr n).data = natChars n := by
  show ((Nat.toDigits 10 n).asString).data = natChars n
  rw [Nat.toDigits, toDigitsCore_eq_natChars (n + 1) n [] (Nat.lt_succ_self n)]
  simp [List.asString]

theorem digitChar_isDigit (m : Nat) (h : m < 10) : (Nat.digitChar m).isDigit = true := by
  interval_cases m <;> decide

theorem natChars_all_digits : ∀ n : Nat, ∀ ch ∈ natChars n, ch.isDigit = true := by
  intro n
  induction n using Nat.strong_induction_on with
  | _ n ih =>
    by_cases h : n < 10
    · rw [natChars_lt n h]
      intro ch hch
      simp only [List.mem_singleton] at hch
      subst hch
      exact digitChar_isDigit n h
    · rw [natChars_ge n h]
      intro ch hch
      rcases List.mem_append.mp hch with hm | hm
      · exact ih (n / 10) (Nat.div_lt_self (by omega) (by omega)) ch hm
      · simp only [List.mem_singleton] at hm
        subst hm
        exact digitChar_isDigit _ (Nat.mod_lt _ (by omega))

theorem natChars_length (k : Nat) : ∀ n : Nat, 10 ^ k ≤ n → n < 10 ^ (k + 1) →
    (natChars n).length = k + 1 := by
  induction k with
  | zero =>
    intro n h1 h2
    rw [natChars_lt n (by simpa using h2)]
    rfl
  | succ k ih =>
    intro n h1 h2
    have hpow : (10 : Nat) ≤ 10 ^ (k + 1) := by
      calc (10 : Nat) = 10 ^ 1 := by norm_num
      _ ≤ 10 ^ (k + 1) := Nat.pow_le_pow_right (by norm_num) (by omega)
    have h10 : ¬n < 10 := by omega
    rw [natChars_ge n h10, List.length_append]
    have e1 : 10 ^ k ≤ n / 10 := (Nat.le_div_iff_mul_le (by norm_num)).mpr (by
      calc 10 ^ k * 10 = 10 ^ (k + 1) := by ring
      _ ≤ n := h1)
    have e2 : n / 10 < 10 ^ (k + 1) := (Nat.div_lt_iff_lt_mul (by norm_num)).mpr (by
      calc n < 10 ^ (k + 1 + 1) := h2
      _ = 10 ^ (k + 1) * 10 := by ring)
    rw [ih (n / 10) e1 e2]
    simp

theorem list_len4 {α : Type} (l : List α) (h : l.length = 4) :
    ∃ a b c d, l = [a, b, c, d] := by
  rcases l with _ | ⟨a, _ | ⟨b, _ | ⟨c, _ | ⟨d, _ | ⟨e, t⟩⟩⟩⟩⟩
  · simp at h
  · simp at h
  · simp at h
  · simp at h
  · exact ⟨a, b, c, d, rfl⟩
  · simp at h

theorem toString_year_shape (y : Nat) (h1 : 1000 ≤ y) (h2 : y ≤ 9999) :
    ∃ a b c d : Char, (toString y).data = [a, b, c, d] ∧
      a.isDigit = true ∧ b.isDigit = true ∧ c.isDigit = true ∧ d.isDigit = true := by
  have hts : (toString y).data = natChars y := repr_data_eq_natChars y
  have hlen : (natChars y).length = 4 := by
    have h3 : (10 : Nat) ^ 3 ≤ y := by norm_num; omega
    have h4 : y < 10 ^ (3 + 1) := by norm_num; omega
    simpa using natChars_length 3 y h3 h4
  obtain ⟨a, b, c, d, habcd⟩ := list_len4 (natChars y) hlen
  have hdig := natChars_all_digits y
  rw [habcd] at hdig
  refine ⟨a, b, c, d, by rw [hts, habcd], ?_, ?_, ?_, ?_⟩
  · exact hdig a (by simp)
  · exact hdig b (by simp)
  · exact hdig c (by simp)
  · exact hdig d (by simp)

theorem pad2_shape (n : Nat) (h : n < 100) :
    ∃ a b : Char, (pad2 n).data = [a, b] ∧ a.isDigit = true ∧ b.isDigit = true := by
  by_cases h10 : n < 10
  · refine ⟨'0', Nat.digitChar n, ?_, by decide, digitChar_isDigit n h10⟩
    rw [pad2, if_pos h10, String.data_append]
    have e : (toString n).data = natChars n := repr_data_eq_natChars n
    rw [e, natChars_lt n h10]
    rfl
  · have hlen : (natChars n).length = 2 := by
      have h3 : (10 : Nat) ^ 1 ≤ n := by norm_num; omega
      have h4 : n < 10 ^ (1 + 1) := by norm_num; omega
      simpa using natChars_length 1 n h3 h4
    have hdig := natChars_all_digits n
    rw [pad2, if_neg h10]
    have e : (toString n).data = natChars n := repr_data_eq_natChars n
    obtain ⟨a, b, hab⟩ := List.length_eq_two.mp hlen
    rw [hab] at hdig
    refine ⟨a, b, by rw [e, hab], ?_, ?_⟩
    · exact hdig a (by simp)
    · exact hdig b (by simp)

/-- Under ordinary clock readings the rendered date/time has exactly the
`YYYY-MM-DD HH:MM` shape. -/
theorem getFormattedISODate_shape (c : Clock)
    (hy1 : 1000 ≤ c.year) (hy2 : c.year ≤ 9999) (hm : c.month + 1 < 100)
    (hd : c.day < 100) (hh : c.hours < 100) (hmin : c.minutes < 100) :
    ∃ y1 y2 y3 y4 m1 m2 d1 d2 hr1 hr2 mi1 mi2 : Char,
      (getFormattedISODate c).data =
        [y1, y2, y3, y4, '-', m1, m2, '-', d1, d2, ' ', hr1, hr2, ':', mi1, mi2] ∧
      y1.isDigit = true ∧ y2.isDigit = true ∧ y3.isDigit = true ∧
      y4.isDigit = true ∧ m1.isDigit = true ∧ m2.isDigit = true ∧
      d1.isDigit = true ∧ d2.isDigit = true ∧ hr1.isDigit = true ∧
      hr2.isDigit = true ∧ mi1.isDigit = true ∧ mi2.isDigit = true := by
  obtain ⟨y1, y2, y3, y4, hy, hq1, hq2, hq3, hq4⟩ := toString_year_shape c.year hy1 hy2
  obtain ⟨m1, m2, hmd, hw1, hw2⟩ := pad2_shape (c.month + 1) hm
  obtain ⟨d1, d2, hdd, he1, he2⟩ := pad2_shape c.day hd
  obtain ⟨hr1, hr2, hhd, hf1, hf2⟩ := pad2_shape c.hours hh
  obtain ⟨mi1, mi2, hnd, hg1, hg2⟩ := pad2_shape c.minutes hmin
  refine ⟨y1, y2, y3, y4, m1, m2, d1, d2, hr1, hr2, mi1, mi2, ?_,
    hq1, hq2, hq3, hq4, hw1, hw2, he1, he2, hf1, hf2, hg1, hg2⟩
  simp [getFormattedISODate, String.data_append, hy, hmd, hdd, hhd, hnd]

/-- The placeholder substitution of `useTemplateForContent`
(src/src/ExtNoteManager.ts:146-147): replace every `%date%` with the
formatted date, then every `%id%` with the note's unique id. -/
def renderTemplate (tpl dateStr idStr : String) : String :=
  String.mk (replaceAll ("%id%".data) idStr.data
    (replaceAll ("%date%".data) dateStr.data tpl.data))

/-! ### Claim C8 -/

/-- C8: template rendering replaces every occurrence of the literal token
`%date%` with the current local date/time in the format `YYYY-MM-DD HH:MM`
and every occurrence of `%id%` with the supplied unique id; on a text
containing neither token the substitution returns the text unchanged, so
applying the substitution to its own output (when that output contains no
more placeholders) is a no-op.  "Replaces every occurrence" is stated as:
the input is exactly its scan segments joined by the token, no segment
contains the token, and the pass returns the same segments joined by the
replacement text instead. -/
theorem c8_thm (c : Clock) (idStr t : String)
    (hy1 : 1000 ≤ c.year) (hy2 : c.year ≤ 9999) (hm : c.month + 1 < 100)
    (hd : c.day < 100) (hh : c.hours < 100) (hmin : c.minutes < 100) :
    (∃ y1 y2 y3 y4 m1 m2 d1 d2 hr1 hr2 mi1 mi2 : Char,
      (getFormattedISODate c).data =
        [y1, y2, y3, y4, '-', m1, m2, '-', d1, d2, ' ', hr1, hr2, ':', mi1, mi2] ∧
      y1.isDigit = true ∧ y2.isDigit = true ∧ y3.isDigit = true ∧
      y4.isDigit = true ∧ m1.isDigit = true ∧ m2.isDigit = true ∧
      d1.isDigit = true ∧ d2.isDigit = true ∧ hr1.isDigit = true ∧
      hr2.isDigit = true ∧ mi1.isDigit = true ∧ mi2.isDigit = true) ∧
    (joinWith ("%date%".data) (splitSeq ("%date%".data) t.data) = t.data ∧
     (∀ s ∈ splitSeq ("%date%".data) t.data, occursB ("%date%".data) s = false) ∧
     replaceAll ("%date%".data) (getFormattedISODate c).data t.data =
       joinWith (getFormattedISODate c).data (splitSeq ("%date%".data) t.data)) ∧
    (joinWith ("%id%".data)
        (splitSeq ("%id%".data)
          (replaceAll ("%date%".data) (getFormattedISODate c).data t.data)) =
       replaceAll ("%date%".data) (getFormattedISODate c).data t.data ∧
     (∀ s ∈ splitSeq ("%id%".data)
        (replaceAll ("%date%".data) (getFormattedISODate c).data t.data),
        occursB ("%id%".data) s = false) ∧
     (renderTemplate t (getFormattedISODate c) idStr).data =
       joinWith idStr.data
         (splitSeq ("%id%".data)
           (replaceAll ("%date%".data) (getFormattedISODate c).data t.data))) ∧
    (∀ u : String, occursB ("%date%".data) u.data = false →
      occursB ("%id%".data) u.data = false →
      renderTemplate u (getFormattedISODate c) idStr = u) := by
  refine ⟨getFormattedISODate_shape c hy1 hy2 hm hd hh hmin, ⟨?_, ?_, ?_⟩, ⟨?_, ?_, ?_⟩, ?_⟩
  · exact joinWith_splitSeq ("%date%".data) t.data
  · exact splitSeq_token_free ("%date%".data) (by decide) t.data
  · exact replaceAll_eq_joinWith ("%date%".data) (getFormattedISODate c).data t.data
  · exact joinWith_splitSeq ("%id%".data) _
  · exact splitSeq_token_free ("%id%".data) (by decide) _
  · show (String.mk _).data = _
    exact replaceAll_eq_joinWith ("%id%".data) idStr.data _
  · intro u h1 h2
    show String.mk _ = u
    rw [replaceAll_of_not_occurs ("%date%".data) (getFormattedISODate c).data u.data h1,
      replaceAll_of_not_occurs ("%id%".data) idStr.data u.data h2]

/-- C8, witness: the substitution applied at a concrete clock and id to a
text containing no placeholder is a no-op. -/
theorem c8_witness :
    renderTemplate "plain text without placeholders"
      (getFormattedISODate ⟨2024, 7, 5, 9, 7⟩) "V1StGXR8_Z5jdHi6B" =
      "plain text without placeholders" := by
  exact (c8_thm ⟨2024, 7, 5, 9, 7⟩ "V1StGXR8_Z5jdHi6B" "x %date% y %id%"
    (by decide) (by decide) (by decide) (by decide) (by decide)
    (by decide)).2.2.2 "plain text without placeholders" (by decide) (by decide)

/-! ### The vault model -/

/-- Raw byte contents, abstracted. -/
abbrev Bytes := List Nat

inductive FContent
  | text (s : String)
  | bin (b : Bytes)
deriving DecidableEq, Repr

/-- The vault: a finite association of normalized paths to file contents. -/
structure World where
  files : List (String × FContent)
deriving DecidableEq, Repr

def World.lookup (w : World) (p : String) : Option FContent :=
  (w.files.find? (fun x => x.1 == p)).map (fun x => x.2)

def World.existsP (w : World) (p : String) : Bool :=
  (w.lookup p).isSome

def World.removeP (w : World) (p : String) : World :=
  ⟨w.files.filter (fun x => !(x.1 == p))⟩

def World.add (w : World) (p : String) (c : FContent) : World :=
  ⟨w.files ++ [(p, c)]⟩

/-- `vault.create` / `vault.createBinary`: throws (here `none`) when a file
already exists at the path. -/
def World.create (w : World) (p : String) (c : FContent) : Option World :=
  if w.existsP p then none else some (w.add p c)

def World.countP (w : World) (p : String) : Nat :=
  (w.files.filter (fun x => x.1 == p)).length

/-! ### Mail data and input files -/

structure Attachment where
  filename : Option String
  content : Bytes
deriving DecidableEq, Repr

structure ParsedMail where
  subject : Option String
  text : String
  attachments : List Attachment
deriving DecidableEq, Repr

/-- The fields of the obsidian `TFile` handle used by the pipeline, together
with the file's raw bytes (what `readBinary` returns for it). -/
structure TF where
  basename : String
  extension : String
  bytes : Bytes
deriving DecidableEq, Repr

/-- `TFile.name`: basename plus dotted extension. -/
def TF.name (f : TF) : String :=
  if f.extension == "" then f.basename else f.basename ++ "." ++ f.extension

/-- Index of the last dot in the list, if any. -/
def lastDotIdx : List Char → Option Nat
  | [] => none
  | c :: cs =>
    match lastDotIdx cs with
    | some i => some (i + 1)
    | none => if c == '.' then some 0 else none

/-- Node's `path.extname`: take the basename after the last slash (ignoring
trailing slashes) and return its substring from the last dot on, except that
a basename with its only dot in front (a hidden file) or the special name
".." yields the empty string. -/
def extnameNode (s : String) : String :=
  let noTrail := (s.data.reverse.dropWhile (fun c => c == '/')).reverse
  let base := (noTrail.reverse.takeWhile (fun c => !(c == '/'))).reverse
  if base == ['.', '.'] then ""
  else
    match lastDotIdx base with
    | none => ""
    | some 0 => ""
    | some i => String.mk (base.drop i)

/-! ### Settings, events and manager state -/

/-- The settings record of src/src/ExtNoteManager.ts:8-17. -/
structure CreateNoteSettings where
  inputFolderPath : String
  noteFolderPath : String
  attachementFolderPath : String
  useTemplate : Bool
  templateFolderPath : String
  importTemplate : String
  attachEmlFile : Bool
  ignoreHiddenFiles : Bool
deriving DecidableEq, Repr

/-- Observable side effects: `new Notice(...)`, console logging, and a call
to the mail parser on a file's bytes. -/
inductive Event
  | notice (msg : String)
  | logged (msg : String)
  | parsedMail (name : String)
deriving DecidableEq, Repr

/-- The private instance fields of `ExtNoteManager`
(src/src/ExtNoteManager.ts:27-29): the note draft, the per-item unique id
and the attachment list.  The constructor initializes the draft and the id
to the empty string, the list to `[]`. -/
structure MgrState where
  noteContent : String
  noteUUID : String
  attachementList : List String
deriving DecidableEq, Repr

/-- Obsidian's `normalizePath`: backslashes to slashes, collapse slash runs,
strip leading and trailing slashes. -/
def collapseSlashes : List Char → List Char
  | [] => []
  | c :: cs =>
    match collapseSlashes cs with
    | [] => [c]
    | d :: ds => if c == '/' && d == '/' then d :: ds else c :: d :: ds

def normalizePath (s : String) : String :=
  let l1 := s.data.map (fun c => if c == '\\' then '/' else c)
  let l2 := collapseSlashes l1
  let l3 := l2.dropWhile (fun c => c == '/')
  String.mk ((l3.reverse.dropWhile (fun c => c == '/')).reverse)

/-- `path.join` as used in the source (`join(a + "/", b)` or `join(a, b)` on
slash-clean segments): concatenation with a single slash. -/
def join2 (a b : String) : String := a ++ "/" ++ b

/-- JS `x || ''` on an optional string. -/
def jsOrEmpty (o : Option String) : String :=
  match o with
  | some s => s
  | none => ""

/-- JS `x || d` on an optional string: `undefined` and the empty string are
both falsy and fall back to the default. -/
def jsOrDefault (o : Option String) (d : String) : String :=
  match o with
  | some s => if s == "" then d else s
  | none => d

/-! ### The per-item pipeline of `ExtNoteManager` -/

/-- The vault path of an input file as computed by the orchestrator:
`join(inputFolderPath + "/", file)` (src/src/ExtNoteManager.ts:66). -/
def inputPath (s : CreateNoteSettings) (f : TF) : String :=
  join2 s.inputFolderPath f.name

/-- `useTemplateForContent` (src/src/ExtNoteManager.ts:124-156).  When
templates are disabled it returns immediately — the note draft is NOT
reset.  When enabled it overwrites the draft with the rendered template; on
a missing template file the error is caught locally, a notice is shown and
the draft is again left as it was. -/
def useTemplateForContent (w : World) (s : CreateNoteSettings) (clk : Clock)
    (st : MgrState) : MgrState × List Event :=
  if !s.useTemplate then (st, [])
  else
    match w.lookup (join2 s.templateFolderPath s.importTemplate) with
    | some (FContent.text tpl) =>
      ({ st with noteContent :=
          renderTemplate tpl (getFormattedISODate clk) st.noteUUID }, [])
    | _ => (st, [Event.notice "Unable to use template"])

/-- `createNoteContent` (src/src/ExtNoteManager.ts:160-184): only a file
whose extension is exactly "eml" contributes subject and body text (this
comparison uses `!=`, unlike line 191). -/
def createNoteContent (parse : Bytes → ParsedMail) (f : TF) (st : MgrState) :
    MgrState × List Event :=
  if !(f.extension == "eml") then (st, [])
  else
    let parsed := parse f.bytes
    ({ st with noteContent := st.noteContent ++ "**Subject: " ++
        jsOrDefault parsed.subject "No Subject" ++ "**\n\n" ++
        parsed.text ++ "\n" }, [Event.parsedMail f.name])

/-- The attachment extraction loop of `moveFileToAttachmentFolder`
(src/src/ExtNoteManager.ts:200-217): each attachment whose filename has a
non-empty extension is written as `<uuid>_<filename>` into the attachment
folder and recorded in the attachment list; an attachment without an
extension is skipped entirely; a `createBinary` failure throws and aborts
the loop. -/
def attachLoop (attFolder uuid : String) :
    List Attachment → World → List String → World × List String × Bool
  | [], w, acc => (w, acc, true)
  | a :: rest, w, acc =>
    let filename := jsOrEmpty a.filename
    if extnameNode filename == "" then attachLoop attFolder uuid rest w acc
    else
      let newFilename := uuid ++ "_" ++ filename
      let attachPath := normalizePath (attFolder ++ "/" ++ newFilename)
      match w.create attachPath (FContent.bin a.content) with
      | some w2 => attachLoop attFolder uuid rest w2 (acc ++ [newFilename])
      | none => (w, acc, false)

/-- `moveFile` (src/src/ExtNoteManager.ts:285-301): look up the source and
copy or rename it; every failure is caught INSIDE this helper (log plus
notice, no rethrow), so a failed move never aborts the caller. -/
def moveFile (w : World) (src target : String) (copyOnly : Bool) :
    World × List Event :=
  match w.lookup src with
  | none => (w, [Event.logged "File move failed",
      Event.notice ("File move failed for " ++ src)])
  | some c =>
    if copyOnly then
      match w.create target c with
      | some w2 => (w2, [])
      | none => (w, [Event.logged "File move failed",
          Event.notice ("File move failed for " ++ src)])
    else
      match (w.removeP src).create target c with
      | some w2 => (w2, [])
      | none => (w, [Event.logged "File move failed",
          Event.notice ("File move failed for " ++ src)])

/-- The result of one pipeline stage: the vault, the manager state, the
emitted events, and whether the stage completed without throwing
(`ok = false` models an exception propagating to the caller). -/
structure StageRes where
  w : World
  st : MgrState
  evs : List Event
  ok : Bool
deriving DecidableEq, Repr

/-- `moveFileToAttachmentFolder` (src/src/ExtNoteManager.ts:187-242).
Faithful to a source bug: line 191 reads `if (inputFile.extension = "eml")`
— an ASSIGNMENT, not a comparison; its value is the string "eml", which is
truthy, so the mail branch is taken for EVERY input file: the file's bytes
are read and parsed as a mail message, its parsed attachments are extracted,
and when `attachEmlFile` is false the input file is deleted and the function
returns without moving it and without recording an embed link for it. -/
def moveFileToAttachmentFolder (parse : Bytes → ParsedMail)
    (s : CreateNoteSettings) (f : TF) (w : World) (st : MgrState) : StageRes :=
  let parsed := parse f.bytes
  let pe := [Event.parsedMail f.name]
  let r := attachLoop s.attachementFolderPath st.noteUUID parsed.attachments
    w st.attachementList
  let st1 := { st with attachementList := r.2.1 }
  if !r.2.2 then
    ⟨r.1, st1, pe ++ [Event.notice "Unable to handle input file ",
      Event.logged "Unable to handle input file"], false⟩
  else if !s.attachEmlFile then
    ⟨r.1.removeP (inputPath s f), st1, pe, true⟩
  else
    let srcFile := join2 s.inputFolderPath f.name
    let newFilename := st.noteUUID ++ "_" ++ f.name
    let targetFile := normalizePath (s.attachementFolderPath ++ "/" ++ newFilename)
    let mv := moveFile r.1 srcFile targetFile false
    ⟨mv.1, { st1 with attachementList := st1.attachementList ++ [newFilename] },
      pe ++ mv.2, true⟩

/-- `addAttachmentsToContent` (src/src/ExtNoteManager.ts:245-253): append one
embed link per recorded attachment, in recording order, then clear the
list (but not the note draft) for the next file. -/
def addAttachmentsToContent (s : CreateNoteSettings) (st : MgrState) : MgrState :=
  { st with
    noteContent := st.attachementList.foldl
      (fun acc e => acc ++ "\n\n![[" ++ join2 s.attachementFolderPath e ++ "]]")
      st.noteContent,
    attachementList := [] }

/-- The inline `fileName.replace` of `createFinalNote`
(src/src/ExtNoteManager.ts:258): remove every character that is not a word
character, whitespace or a dash. -/
def sanitizeTitle (x : String) : String :=
  String.mk (x.data.filter (fun c => isWordChar c || isJsWs c || c == '-'))

/-- The note path computed by `createFinalNote`
(src/src/ExtNoteManager.ts:258-259). -/
def notePathOf (s : CreateNoteSettings) (clk : Clock) (fileName : String) : String :=
  join2 s.noteFolderPath (createDatePrefix clk ++ " " ++ sanitizeTitle fileName ++ ".md")

/-- `createFinalNote` (src/src/ExtNoteManager.ts:256-263): compute the note
path and call `vault.create`, which throws when a file already exists at
that path; there is no delete-if-exists step in this revision. -/
def createFinalNote (s : CreateNoteSettings) (clk : Clock) (fileName : String)
    (w : World) (st : MgrState) : StageRes :=
  match w.create (notePathOf s clk fileName) (FContent.text st.noteContent) with
  | some w2 => ⟨w2, st, [], true⟩
  | none => ⟨w, st, [], false⟩

/-- `createNoteFromFile` (src/src/ExtNoteManager.ts:95-121): set the uuid,
render the template, add mail content, move/extract attachments, append the
embed links and write the note; any error is logged and RETHROWN to the
caller. -/
def createNoteFromFile (parse : Bytes → ParsedMail) (s : CreateNoteSettings)
    (clk : Clock) (uuid : String) (f : TF) (w : World) (st : MgrState) : StageRes :=
  let st0 := { st with noteUUID := uuid }
  let t1 := useTemplateForContent w s clk st0
  let t2 := createNoteContent parse f t1.1
  let orgFilename := f.basename
  let m := moveFileToAttachmentFolder parse s f w t2.1
  if !m.ok then
    ⟨m.w, m.st, t1.2 ++ t2.2 ++ m.evs ++
      [Event.logged "Error in main process for file"], false⟩
  else
    let st3 := addAttachmentsToContent s m.st
    let fin := createFinalNote s clk orgFilename m.w st3
    if !fin.ok then
      ⟨fin.w, fin.st, t1.2 ++ t2.2 ++ m.evs ++ fin.evs ++
        [Event.logged "Error in main process for file"], false⟩
    else ⟨fin.w, fin.st, t1.2 ++ t2.2 ++ m.evs ++ fin.evs, true⟩

/-! ### The batch orchestrator -/

/-- A directory entry as resolved by the orchestrator:
`getAbstractFileByPath` yields a folder, a file, or nothing. -/
inductive Entry
  | dir (name : String)
  | file (f : TF)
  | missing (name : String)
deriving DecidableEq, Repr

def Entry.entryName : Entry → String
  | .dir n => n
  | .file f => f.name
  | .missing n => n

/-- The result of the orchestrator loop. -/
structure LoopRes where
  w : World
  st : MgrState
  evs : List Event
  count : Nat
  ok : Bool
deriving DecidableEq, Repr

/-- `file.startsWith('.')`. -/
def startsDot (s : String) : Bool :=
  match s.data with
  | c :: _ => c == '.'
  | [] => false

/-- The `for` loop of `createNotesForFiles`
(src/src/ExtNoteManager.ts:61-82): skip hidden entries when configured, skip
directories, throw when the entry cannot be resolved to a file, otherwise
process it and count it.  There is no extension check of any kind here.  The
whole loop runs inside one `try`, so a throw anywhere leaves the loop. -/
def loopFiles (parse : Bytes → ParsedMail) (s : CreateNoteSettings) (clk : Clock)
    (g : Nat → String) : List Entry → World → MgrState → Nat → LoopRes
  | [], w, st, n => ⟨w, st, [], n, true⟩
  | e :: rest, w, st, n =>
    if s.ignoreHiddenFiles && startsDot e.entryName then
      loopFiles parse s clk g rest w st n
    else
      match e with
      | .dir _ => loopFiles parse s clk g rest w st n
      | .missing _ => ⟨w, st, [], n, false⟩
      | .file f =>
        let r := createNoteFromFile parse s clk (g n) f w st
        if r.ok then
          let tail := loopFiles parse s clk g rest r.w r.st (n + 1)
          ⟨tail.w, tail.st, r.evs ++ tail.evs, tail.count, tail.ok⟩
        else ⟨r.w, r.st, r.evs, n, false⟩

/-- `createNotesForFiles` (src/src/ExtNoteManager.ts:52-90): run the loop
over the directory listing starting from the constructor-initialized state;
on normal completion emit the summary notice; on a throw the `catch`
OUTSIDE the loop logs to the console — no summary notice, no per-item
failure notice from the orchestrator, and the remaining entries are never
dispatched. -/
def createNotesForFiles (parse : Bytes → ParsedMail) (s : CreateNoteSettings)
    (clk : Clock) (g : Nat → String) (entries : List Entry) (w : World) :
    World × List Event :=
  let r := loopFiles parse s clk g entries w ⟨"", "", []⟩ 0
  if r.ok then
    (r.w, r.evs ++ [Event.notice ("Processed " ++ toString r.count ++ " files")])
  else (r.w, r.evs ++ [Event.logged "Error in looping files"])

/-! ### The folder existence guard and the constructor -/

/-- The check list of `ensureAllFoldersExist`
(src/src/ExtNoteManager.ts:348-361): the four folders, plus the template
file when template use is enabled. -/
def guardChecks (s : CreateNoteSettings) : List (String × String) :=
  [(s.attachementFolderPath, "Folder " ++ s.attachementFolderPath ++ " does not exist"),
   (s.inputFolderPath, "Folder " ++ s.inputFolderPath ++ " does not exist"),
   (s.noteFolderPath, "Folder " ++ s.noteFolderPath ++ " does not exist"),
   (s.templateFolderPath, "Folder " ++ s.templateFolderPath ++ " does not exist")] ++
  (if s.useTemplate then
    [(s.templateFolderPath ++ "/" ++ s.importTemplate,
      "Template " ++ s.importTemplate ++ " does not exist")]
   else [])

def guardLoop (ex : String → Bool) : List (String × String) → Bool × List Event
  | [] => (true, [])
  | (p, msg) :: rest =>
    if ex p then guardLoop ex rest else (false, [Event.notice msg])

/-- `ensureAllFoldersExist` (src/src/ExtNoteManager.ts:345-371): the value
the returned promise resolves to, given the `adapter.exists` oracle `ex`,
together with the notice for the first failed check. -/
def ensureAllFoldersExist (s : CreateNoteSettings) (ex : String → Bool) :
    Bool × List Event :=
  guardLoop ex (guardChecks s)

/-- The `ExtNoteManager` constructor (src/src/ExtNoteManager.ts:31-47) tests
`!this.ensureAllFoldersExist(...)` WITHOUT `await`: `ensureAllFoldersExist`
is `async`, so the tested value is a `Promise` object; an object is always
truthy in JavaScript, so the negation is always `false` and the
`throw ("Settings not correct")` is unreachable, whatever boolean the
promise later resolves to. -/
def constructorThrows (_s : CreateNoteSettings) (_ex : String → Bool) : Bool :=
  let promiseIsTruthy := true
  !promiseIsTruthy

/-- The ribbon handler (src/src/main.ts:41-52): construct the manager and, if
the constructor did not throw, run the batch. -/
def ribbonImport (parse : Bytes → ParsedMail) (s : CreateNoteSettings)
    (ex : String → Bool) (clk : Clock) (g : Nat → String)
    (entries : List Entry) (w : World) : World × List Event :=
  if constructorThrows s ex then (w, [Event.notice "Unable to process file"])
  else createNotesForFiles parse s clk g entries w

/-! ### The older revision (src/unnamed/part_004), where cited by claims -/

/-- The note-write step of the OLD eml pipeline (`processEmlFile`,
src/unnamed/part_004:186-195): delete an existing file at the note path
first, then create the new note. -/
def deleteThenCreateNote (w : World) (p : String) (content : String) : World :=
  let w1 := if w.existsP p then w.removeP p else w
  w1.add p (FContent.text content)

inductive Part004Action
  | emlPath
  | skip
  | standardPath
deriving DecidableEq, Repr

/-- The extension switch of the OLD orchestrator (`processFiles`,
src/unnamed/part_004:94-106): `.eml` goes to the mail path, `.md` is
skipped, everything else is a standard file.  The current orchestrator
(`createNotesForFiles`) has no such switch. -/
def part004ExtSwitch (ext : String) : Part004Action :=
  if ext == ".eml" then Part004Action.emlPath
  else if ext == ".md" then Part004Action.skip
  else Part004Action.standardPath

/-! ### Vault facts -/

theorem existsP_add (w : World) (p : String) (c : FContent) (q : String) :
    (w.add p c).existsP q = (w.existsP q || p == q) := by
  simp only [World.add, World.existsP, World.lookup, List.find?_append]
  cases h : w.files.find? (fun x => x.1 == q) with
  | some x => simp [h, Option.or]
  | none =>
    simp only [h, Option.or, Option.map]
    cases hpq : p == q with
    | true =>
      have : (p, c).1 == q := hpq
      simp [List.find?, this]
    | false =>
      have : ((p, c).1 == q) = false := hpq
      simp [List.find?, this]

theorem removeP_lookup (w : World) (p : String) : (w.removeP p).lookup p = none := by
  have hf : List.find? (fun x => x.1 == p)
      (w.files.filter (fun x => !(x.1 == p))) = none := by
    rw [List.find?_eq_none]
    intro x hx
    have := List.of_mem_filter hx
    simp only [Bool.not_eq_true'] at this
    simp [this]
  simp [World.removeP, World.lookup, hf]

theorem lookup_none_of_existsP_false (w : World) (p : String)
    (h : w.existsP p = false) : w.lookup p = none := by
  unfold World.existsP at h
  exact Option.not_isSome_iff_eq_none.mp (by simp [h])

theorem add_lookup_self (w : World) (p : String) (c : FContent)
    (h : w.lookup p = none) : (w.add p c).lookup p = some c := by
  simp only [World.add, World.lookup, List.find?_append]
  unfold World.lookup at h
  cases hf : w.files.find? (fun x => x.1 == p) with
  | some x => rw [hf] at h; simp at h
  | none => simp [Option.or, List.find?]

theorem countP_add (w : World) (p : String) (c : FContent) :
    (w.add p c).countP p = w.countP p + 1 := by
  simp [World.add, World.countP, List.filter_append]

theorem countP_zero_of_lookup_none (w : World) (p : String)
    (h : w.lookup p = none) : w.countP p = 0 := by
  unfold World.lookup at h
  cases hf : w.files.find? (fun x => x.1 == p) with
  | some x => rw [hf] at h; simp at h
  | none =>
    have hall := List.find?_eq_none.mp hf
    simp only [World.countP, List.length_eq_zero]
    rw [List.filter_eq_nil_iff]
    exact hall

/-! ### Concrete fixtures for the counterexamples -/

/-- The parse result of the external mail parser on junk (non-mail) bytes:
no subject, empty body, no attachments. -/
def exParse : Bytes → ParsedMail := fun _ => ⟨none, "", []⟩

/-- Settings used by the concrete runs: template use disabled, the original
file attached, hidden files ignored. -/
def exSettings : CreateNoteSettings :=
  ⟨"_input", "_notes", "_att", false, "_tpl", "t.md", true, true⟩

/-- Settings with `attachEmlFile` disabled. -/
def exC2Settings : CreateNoteSettings :=
  ⟨"_input", "_notes", "_att", false, "_tpl", "t.md", false, true⟩

def exClock : Clock := ⟨2024, 0, 15, 10, 30⟩

/-- A deterministic stand-in for the per-item `nanoid()` stream. -/
def exG : Nat → String := fun n => "u" ++ toString n

def exW0 : World := ⟨[("_input/x.txt", FContent.bin [1]), ("_input/y.txt", FContent.bin [2])]⟩

def exW1 : World := ⟨[("_input/a.pdf", FContent.bin [1]), ("_input/a.txt", FContent.bin [2]),
  ("_input/b.txt", FContent.bin [3])]⟩

def exW2 : World := ⟨[("_input/report.pdf", FContent.bin [9])]⟩

def exW3 : World := ⟨[("_input/note.md", FContent.bin [7])]⟩

def exW0x : World := ⟨[("_input/x.txt", FContent.bin [1])]⟩

/-- An `adapter.exists` oracle under which only the attachment folder is
missing. -/
def exMissingAtt : String → Bool := fun p => !(p == "_att")

/-! ### Claim C7 -/

/-- The attachments the code keeps: those whose (possibly defaulted)
filename has a non-empty Node `extname`. -/
def keptOf (atts : List Attachment) : List Attachment :=
  atts.filter (fun a => !(extnameNode (jsOrEmpty a.filename) == ""))

/-- The attachment-folder path an attachment is written to. -/
def targetOf (attFolder uuid : String) (a : Attachment) : String :=
  normalizePath (attFolder ++ "/" ++ (uuid ++ "_" ++ jsOrEmpty a.filename))

/-- The embed-link lines for a list of recorded attachment names, in order. -/
def linkLinesOf (s : CreateNoteSettings) : List String → String
  | [] => ""
  | e :: es => "\n\n![[" ++ join2 s.attachementFolderPath e ++ "]]" ++ linkLinesOf s es

theorem foldl_links (s : CreateNoteSettings) :
    ∀ (L : List String) (acc : String),
      L.foldl (fun acc e => acc ++ "\n\n![[" ++ join2 s.attachementFolderPath e ++ "]]") acc =
        acc ++ linkLinesOf s L := by
  intro L
  induction L with
  | nil => intro acc; simp [linkLinesOf]
  | cons e es ih =>
    intro acc
    simp only [List.foldl_cons, linkLinesOf, ih]
    simp [String.append_assoc]

/-- The attachment loop, characterized: it completes, records exactly the
kept attachments' target names in order, and appends exactly one new file
per kept attachment, at its target path with its byte content, in order. -/
theorem attachLoop_chars (attFolder uuid : String) :
    ∀ (atts : List Attachment) (w : World) (acc : List String),
      (∀ a ∈ keptOf atts, w.existsP (targetOf attFolder uuid a) = false) →
      ((keptOf atts).map (targetOf attFolder uuid)).Nodup →
      attachLoop attFolder uuid atts w acc =
        (⟨w.files ++ (keptOf atts).map
            (fun a => (targetOf attFolder uuid a, FContent.bin a.content))⟩,
         acc ++ (keptOf atts).map (fun a => uuid ++ "_" ++ jsOrEmpty a.filename),
         true) := by
  intro atts
  induction atts with
  | nil =>
    intro w acc _ _
    simp [attachLoop, keptOf]
  | cons a rest ih =>
    intro w acc hfresh hnodup
    by_cases hext : (extnameNode (jsOrEmpty a.filename) == "") = true
    · have hk : keptOf (a :: rest) = keptOf rest := by
        simp [keptOf, List.filter_cons, hext]
      rw [hk] at hfresh hnodup ⊢
      simp only [attachLoop, hext, if_true]
      exact ih w acc hfresh hnodup
    · have hbe : (extnameNode (jsOrEmpty a.filename) == "") = false :=
        eq_false_of_ne_true hext
      have hkept : keptOf (a :: rest) = a :: keptOf rest := by
        simp [keptOf, List.filter_cons, hbe]
      rw [hkept] at hfresh hnodup ⊢
      have hfa : w.existsP (targetOf attFolder uuid a) = false :=
        hfresh a (List.mem_cons_self a _)
      have hnd := List.nodup_cons.mp hnodup
      have hcreate : w.create
          (normalizePath (attFolder ++ "/" ++ (uuid ++ "_" ++ jsOrEmpty a.filename)))
          (FContent.bin a.content) =
          some (w.add (targetOf attFolder uuid a) (FContent.bin a.content)) := by
        show (if w.existsP (targetOf attFolder uuid a) = true then none
          else some (w.add (targetOf attFolder uuid a) (FContent.bin a.content))) = _
        rw [hfa]
        simp
      simp only [attachLoop, hbe, Bool.false_eq_true, if_false, hcreate]
      rw [ih (w.add (targetOf attFolder uuid a) (FContent.bin a.content))
        (acc ++ [uuid ++ "_" ++ jsOrEmpty a.filename])
        (by
          intro b hb
          rw [existsP_add, hfresh b (List.mem_cons_of_mem a hb), Bool.false_or]
          rw [beq_eq_false_iff_ne]
          intro hcon
          exact hnd.1 (hcon ▸ List.mem_map_of_mem (targetOf attFolder uuid) hb))
        hnd.2]
      simp [World.add, List.append_assoc]

/-- C7: for every parsed mail message, exactly those attachments whose
filename has a non-empty file extension are written to the attachment folder
as `<runId>_<originalAttachmentName>` and recorded for one embed link each,
in attachment order; an attachment whose filename has no extension produces
neither a relocated file nor an embed link.  (Hypotheses: the target paths
are fresh and mutually distinct, i.e. `createBinary` does not throw.)  The
final clause characterizes `addAttachmentsToContent`: one embed-link line is
appended per recorded name, in order, and the list is then cleared. -/
theorem c7_thm (attFolder uuid : String) (atts : List Attachment) (w : World)
    (acc : List String)
    (hfresh : ∀ a ∈ keptOf atts, w.existsP (targetOf attFolder uuid a) = false)
    (hnodup : ((keptOf atts).map (targetOf attFolder uuid)).Nodup) :
    attachLoop attFolder uuid atts w acc =
      (⟨w.files ++ (keptOf atts).map
          (fun a => (targetOf attFolder uuid a, FContent.bin a.content))⟩,
       acc ++ (keptOf atts).map (fun a => uuid ++ "_" ++ jsOrEmpty a.filename),
       true) ∧
    (∀ a ∈ atts, (extnameNode (jsOrEmpty a.filename) == "") = true →
      a ∉ keptOf atts) ∧
    (∀ (s : CreateNoteSettings) (st : MgrState),
      (addAttachmentsToContent s st).noteContent =
        st.noteContent ++ linkLinesOf s st.attachementList ∧
      (addAttachmentsToContent s st).attachementList = []) := by
  refine ⟨attachLoop_chars attFolder uuid atts w acc hfresh hnodup, ?_, ?_⟩
  · intro a _ hnoext hmem
    have := List.of_mem_filter hmem
    rw [hnoext] at this
    simp at this
  · intro s st
    constructor
    · simp only [addAttachmentsToContent]
      exact foldl_links s st.attachementList st.noteContent
    · rfl

/-- C7, witness: the spec's own example — attachments `a.pdf` and `b` (no
extension): only `a.pdf` is relocated and recorded for an embed link. -/
theorem c7_witness :
    attachLoop "_att" "u9" [⟨some "a.pdf", [1]⟩, ⟨some "b", [2]⟩] ⟨[]⟩ [] =
      (⟨[("_att/u9_a.pdf", FContent.bin [1])]⟩, ["u9_a.pdf"], true) := by
  have h := (c7_thm "_att" "u9" [⟨some "a.pdf", [1]⟩, ⟨some "b", [2]⟩]
    ⟨[]⟩ [] (by decide) (by decide)).1
  rw [h]
  rfl

/-! ### Claim C1 -/

/-- C1, counterexample: a three-entry batch in which the second entry fails
(its computed note path collides with the first entry's note).  The run ends
with the failure: the third entry is never dispatched (its file is still in
the input folder and no note exists for it), the orchestrator emits no
per-item failure notification — only console log lines — and no summary
count notice is reported. -/
theorem c1_counterexample :
    createNotesForFiles exParse exSettings exClock exG
      [Entry.file ⟨"a", "pdf", [1]⟩, Entry.file ⟨"a", "txt", [2]⟩,
       Entry.file ⟨"b", "txt", [3]⟩] exW1 =
    (⟨[("_input/b.txt", FContent.bin [3]), ("_att/u0_a.pdf", FContent.bin [1]),
       ("_notes/2024-01-15 a.md", FContent.text "\n\n![[_att/u0_a.pdf]]"),
       ("_att/u1_a.txt", FContent.bin [2])]⟩,
     [Event.parsedMail "a.pdf", Event.parsedMail "a.txt",
      Event.logged "Error in main process for file",
      Event.logged "Error in looping files"]) := by
  decide

/-- C1 (amended): when processing of one entry throws, the error propagates
out of the per-item routine (which logs and rethrows) to the orchestrator's
`catch` OUTSIDE the loop: the batch stops there — the remaining entries are
never dispatched (the result does not depend on them at all), the
orchestrator emits no per-item failure notification, the error is only
logged to the console, and the summary count notification is not reported. -/
theorem c1_amended (parse : Bytes → ParsedMail) (s : CreateNoteSettings)
    (clk : Clock) (g : Nat → String) (f : TF) (rest : List Entry) (w : World)
    (hskip : (s.ignoreHiddenFiles && startsDot f.name) = false)
    (hfail : (createNoteFromFile parse s clk (g 0) f w ⟨"", "", []⟩).ok = false) :
    createNotesForFiles parse s clk g (Entry.file f :: rest) w =
      ((createNoteFromFile parse s clk (g 0) f w ⟨"", "", []⟩).w,
       (createNoteFromFile parse s clk (g 0) f w ⟨"", "", []⟩).evs ++
         [Event.logged "Error in looping files"]) := by
  simp only [createNotesForFiles, loopFiles, Entry.entryName, hskip,
    Bool.false_eq_true, if_false, hfail]

/-- C1, witness for the amended theorem: the first entry's note path is
already occupied, the second entry is ignored by the aborted loop. -/
theorem c1_witness :
    createNotesForFiles exParse exSettings exClock exG
      [Entry.file ⟨"c", "txt", [1]⟩, Entry.file ⟨"d", "txt", [2]⟩]
      ⟨[("_input/c.txt", FContent.bin [1]),
        ("_notes/2024-01-15 c.md", FContent.text "OLD")]⟩ =
      ((createNoteFromFile exParse exSettings exClock (exG 0) ⟨"c", "txt", [1]⟩
          ⟨[("_input/c.txt", FContent.bin [1]),
            ("_notes/2024-01-15 c.md", FContent.text "OLD")]⟩ ⟨"", "", []⟩).w,
       (createNoteFromFile exParse exSettings exClock (exG 0) ⟨"c", "txt", [1]⟩
          ⟨[("_input/c.txt", FContent.bin [1]),
            ("_notes/2024-01-15 c.md", FContent.text "OLD")]⟩ ⟨"", "", []⟩).evs ++
         [Event.logged "Error in looping files"]) := by
  exact c1_amended exParse exSettings exClock exG ⟨"c", "txt", [1]⟩
    [Entry.file ⟨"d", "txt", [2]⟩]
    ⟨[("_input/c.txt", FContent.bin [1]),
      ("_notes/2024-01-15 c.md", FContent.text "OLD")]⟩ (by decide) (by decide)

/-! ### Claim C2 -/

/-- C2: the claim is right and the code is wrong.  Because line 191 uses `=`
(assignment) instead of `==`, the mail branch is taken for every file: the
first clause proves that `moveFileToAttachmentFolder` parses the bytes of
EVERY input file as a mail message (the claim says a non-eml file's bytes
are never parsed as mail); the second clause evaluates the pipeline on a
`report.pdf` with `attachEmlFile` disabled: the source file is deleted — not
moved into the attachment folder — and the note is created with no embed
link at all (the claim says moved as `<runId>_<originalName>` with exactly
one embed link). -/
theorem c2_thm :
    (∀ (parse : Bytes → ParsedMail) (s : CreateNoteSettings) (f : TF)
      (w : World) (st : MgrState),
      Event.parsedMail f.name ∈ (moveFileToAttachmentFolder parse s f w st).evs) ∧
    createNoteFromFile exParse exC2Settings exClock "u0" ⟨"report", "pdf", [9]⟩
        exW2 ⟨"", "", []⟩ =
      ⟨⟨[("_notes/2024-01-15 report.md", FContent.text "")]⟩,
       ⟨"", "u0", []⟩, [Event.parsedMail "report.pdf"], true⟩ := by
  constructor
  · intro parse s f w st
    simp only [moveFileToAttachmentFolder]
    split
    · simp
    · split
      · simp
      · simp
  · decide

/-! ### Claim C3 -/

/-- C3: the claim is right and the code is wrong.  With template use
disabled, `useTemplateForContent` returns without resetting the note draft
(`#noteContent` is only assigned in the constructor and in the template
branch), so the second item of a batch starts from the first item's full
content instead of the empty string: the second note below literally
contains the first note's content as a prefix. -/
theorem c3_thm :
    (createNotesForFiles exParse exSettings exClock exG
      [Entry.file ⟨"x", "txt", [1]⟩, Entry.file ⟨"y", "txt", [2]⟩] exW0).1.lookup
        "_notes/2024-01-15 x.md" = some (FContent.text "\n\n![[_att/u0_x.txt]]") ∧
    (createNotesForFiles exParse exSettings exClock exG
      [Entry.file ⟨"x", "txt", [1]⟩, Entry.file ⟨"y", "txt", [2]⟩] exW0).1.lookup
        "_notes/2024-01-15 y.md" =
      some (FContent.text ("\n\n![[_att/u0_x.txt]]" ++ "\n\n![[_att/u1_y.txt]]")) ∧
    ("\n\n![[_att/u0_x.txt]]" : String) ≠ "" := by
  refine ⟨by decide, by decide, by decide⟩

/-! ### Claim C4 -/

theorem guardLoop_true_iff (ex : String → Bool) :
    ∀ l : List (String × String),
      ((guardLoop ex l).1 = true ↔ ∀ pm ∈ l, ex pm.1 = true) := by
  intro l
  induction l with
  | nil => simp [guardLoop]
  | cons pm rest ih =>
    obtain ⟨p, msg⟩ := pm
    cases hpm : ex p with
    | true => simp [guardLoop, hpm, ih]
    | false =>
      simp only [guardLoop, hpm, Bool.false_eq_true, if_false]
      constructor
      · intro hc
        simp at hc
      · intro hall
        exact absurd (hall (p, msg) (List.mem_cons_self _ _))
          (by simp [hpm])

/-- C4: the guard function itself is right — its resolved value is `true`
exactly when every checked path (the four folders, plus the template file
when template use is enabled) exists, and on the first missing path it
notices that path and stops (third clause, concrete) — but the abort is
broken: the constructor tests the truthiness of the un-awaited Promise, so
it NEVER throws (second clause), and a batch started with a missing
attachment folder still runs and moves input files (last clauses: the input
file was read and renamed into the attachment folder although the guard
resolved to `false`). -/
theorem c4_thm :
    (∀ (s : CreateNoteSettings) (ex : String → Bool),
      ((ensureAllFoldersExist s ex).1 = true ↔ ∀ pm ∈ guardChecks s, ex pm.1 = true)) ∧
    (∀ (s : CreateNoteSettings) (ex : String → Bool), constructorThrows s ex = false) ∧
    ensureAllFoldersExist exSettings exMissingAtt =
      (false, [Event.notice "Folder _att does not exist"]) ∧
    (ribbonImport exParse exSettings exMissingAtt exClock exG
        [Entry.file ⟨"x", "txt", [1]⟩] exW0x).1.existsP "_att/u0_x.txt" = true ∧
    (ribbonImport exParse exSettings exMissingAtt exClock exG
        [Entry.file ⟨"x", "txt", [1]⟩] exW0x).1.existsP "_input/x.txt" = false := by
  refine ⟨?_, ?_, by decide, by decide, by decide⟩
  · intro s ex
    exact guardLoop_true_iff ex (guardChecks s)
  · intro s ex
    rfl

/-- C4, witness: the guard characterization applied at an oracle under which
every path exists. -/
theorem c4_witness : (ensureAllFoldersExist exSettings (fun _ => true)).1 = true := by
  exact (c4_thm.1 exSettings (fun _ => true)).mpr (fun pm _ => rfl)

/-! ### Claim C5 -/

/-- C5, counterexample: `createFinalNote` performs no delete: writing at an
occupied note path fails, the old file stays, and afterwards the single file
at that path holds the OLD content — not the new note content as the claim
asserts. -/
theorem c5_counterexample :
    (createFinalNote exSettings exClock "doc"
      ⟨[("_notes/2024-01-15 doc.md", FContent.text "OLD")]⟩ ⟨"NEW", "u0", []⟩).ok = false ∧
    (createFinalNote exSettings exClock "doc"
      ⟨[("_notes/2024-01-15 doc.md", FContent.text "OLD")]⟩ ⟨"NEW", "u0", []⟩).w.lookup
        "_notes/2024-01-15 doc.md" = some (FContent.text "OLD") ∧
    (createFinalNote exSettings exClock "doc"
      ⟨[("_notes/2024-01-15 doc.md", FContent.text "OLD")]⟩ ⟨"NEW", "u0", []⟩).w.countP
        "_notes/2024-01-15 doc.md" = 1 := by
  refine ⟨by decide, by decide, by decide⟩

/-- C5 (amended): only the eml pipeline of the older revision
(`processEmlFile`, part_004) deletes an existing note before creating, after
which exactly one file exists at the path with exactly the new content
(last clause); the current pipeline's `createFinalNote` never deletes: when
a file already exists at the computed note path, the create throws and the
vault is left unchanged — the old file survives with its old content. -/
theorem c5_amended (s : CreateNoteSettings) (clk : Clock) (fileName : String)
    (w : World) (st : MgrState) (c : FContent)
    (hexist : w.lookup (notePathOf s clk fileName) = some c) :
    (createFinalNote s clk fileName w st).ok = false ∧
    (createFinalNote s clk fileName w st).w = w ∧
    (∀ (w2 : World) (p content : String),
      (deleteThenCreateNote w2 p content).lookup p = some (FContent.text content) ∧
      (deleteThenCreateNote w2 p content).countP p = 1) := by
  have hex : w.existsP (notePathOf s clk fileName) = true := by
    unfold World.existsP
    rw [hexist]
    rfl
  have hcr : w.create (notePathOf s clk fileName) (FContent.text st.noteContent) = none := by
    unfold World.create
    rw [hex]
    simp
  refine ⟨?_, ?_, ?_⟩
  · unfold createFinalNote
    rw [hcr]
  · unfold createFinalNote
    rw [hcr]
  · intro w2 p content
    have hlook : (if w2.existsP p = true then w2.removeP p else w2).lookup p = none := by
      by_cases h : w2.existsP p = true
      · rw [if_pos h]
        exact removeP_lookup w2 p
      · rw [if_neg h]
        exact lookup_none_of_existsP_false w2 p (eq_false_of_ne_true h)
    constructor
    · unfold deleteThenCreateNote
      exact add_lookup_self _ p (FContent.text content) hlook
    · unfold deleteThenCreateNote
      rw [countP_add, countP_zero_of_lookup_none _ p hlook]

/-- C5, witness: the amended theorem at a concrete occupied path, for both
revisions' behaviors. -/
theorem c5_witness :
    (createFinalNote exSettings exClock "memo"
      ⟨[("_notes/2024-01-15 memo.md", FContent.text "OLD")]⟩ ⟨"NEW", "u0", []⟩).w =
      ⟨[("_notes/2024-01-15 memo.md", FContent.text "OLD")]⟩ ∧
    (deleteThenCreateNote ⟨[("n.md", FContent.text "OLD")]⟩ "n.md" "NEW").lookup "n.md" =
      some (FContent.text "NEW") := by
  have h := c5_amended exSettings exClock "memo"
    ⟨[("_notes/2024-01-15 memo.md", FContent.text "OLD")]⟩ ⟨"NEW", "u0", []⟩
    (FContent.text "OLD") (by decide)
  exact ⟨h.2.1, (h.2.2 ⟨[("n.md", FContent.text "OLD")]⟩ "n.md" "NEW").1⟩

/-! ### Claim C6 -/

/-- C6, counterexample: the current orchestrator does not skip `.md`
entries: a lone `note.md` in the input folder is fully dispatched — its
bytes are parsed as mail (line 191 bug), the file is moved into the
attachment folder as `u0_note.md`, a note is created for it, and it is
counted in the summary. -/
theorem c6_counterexample :
    createNotesForFiles exParse exSettings exClock exG
        [Entry.file ⟨"note", "md", [7]⟩] exW3 =
      (⟨[("_att/u0_note.md", FContent.bin [7]),
         ("_notes/2024-01-15 note.md", FContent.text "\n\n![[_att/u0_note.md]]")]⟩,
       [Event.parsedMail "note.md", Event.notice "Processed 1 files"]) := by
  decide

/-- C6 (amended): only the older revision's orchestrator (`processFiles`,
part_004) skips `.md` entries, via its extension switch (last clause); the
current orchestrator (`createNotesForFiles`) has no extension check and
dispatches the per-item pipeline for an `.md` entry exactly like any other
file — the batch result is the processed result of that entry, and the
entry is counted in the summary. -/
theorem c6_amended (parse : Bytes → ParsedMail) (s : CreateNoteSettings)
    (clk : Clock) (g : Nat → String) (f : TF) (w : World)
    (hext : f.extension = "md")
    (hskip : (s.ignoreHiddenFiles && startsDot f.name) = false)
    (hok : (createNoteFromFile parse s clk (g 0) f w ⟨"", "", []⟩).ok = true) :
    createNotesForFiles parse s clk g [Entry.file f] w =
      ((createNoteFromFile parse s clk (g 0) f w ⟨"", "", []⟩).w,
       (createNoteFromFile parse s clk (g 0) f w ⟨"", "", []⟩).evs ++
         [Event.notice "Processed 1 files"]) ∧
    part004ExtSwitch ".md" = Part004Action.skip := by
  constructor
  · simp only [createNotesForFiles, loopFiles, Entry.entryName, hskip,
      Bool.false_eq_true, if_false, hok, if_true, List.append_nil]
    rfl
  · rfl

/-- C6, witness: a concrete `.md` entry is dispatched and counted. -/
theorem c6_witness :
    createNotesForFiles exParse exSettings exClock exG
        [Entry.file ⟨"draft", "md", [4]⟩] ⟨[("_input/draft.md", FContent.bin [4])]⟩ =
      ((createNoteFromFile exParse exSettings exClock (exG 0) ⟨"draft", "md", [4]⟩
          ⟨[("_input/draft.md", FContent.bin [4])]⟩ ⟨"", "", []⟩).w,
       (createNoteFromFile exParse exSettings exClock (exG 0) ⟨"draft", "md", [4]⟩
          ⟨[("_input/draft.md", FContent.bin [4])]⟩ ⟨"", "", []⟩).evs ++
         [Event.notice "Processed 1 files"]) := by
  exact (c6_amended exParse exSettings exClock exG ⟨"draft", "md", [4]⟩
    ⟨[("_input/draft.md", FContent.bin [4])]⟩ rfl (by decide) (by decide)).1

end CreateNote
